import Mathlib

/- Formal model of the semantic retrieval core of the repository
   (`app/retrieval/search.py`): the `ScentSearch` class, which wraps an
   external sentence-transformer encoder and a faiss `IndexFlatL2` flat
   index.  Vector components are modelled as rationals (exact arithmetic
   idealisation of the float computation); the encoder is a parameter
   `enc : String → Vec`, which makes it deterministic by construction, as
   the encoder contract requires.  Errors raised by the Python runtime or
   by the libraries are modelled by an explicit error type. -/

namespace ScentContext

/-- Embedding vectors: fixed-length numeric sequences, modelled as lists of
rationals. -/
abbrev Vec := List ℚ

/-- Squared Euclidean (L2) distance: sum of squared per-component
differences of two equal-length vectors.  This is the metric computed by
`faiss.IndexFlatL2`. -/
def sqL2 (u v : Vec) : ℚ :=
  ((List.zip u v).map (fun p => (p.1 - p.2) ^ 2)).sum

/-- Error outcomes.  The first four are the errors the embedded code can
actually raise at runtime: `attributeError` models Python's
`AttributeError` from calling a method on `None`; `indexError` models
`IndexError` (out-of-range list or array-shape access); `faissDimMismatch`
and `faissAssertK` model the checks performed by the faiss index on the
query shape and on `k`.  The remaining constructors are the error kinds
named by the design documentation (`EmptyCorpusError`,
`DimensionMismatchError`, `InvalidArgumentError`); no such classes exist
in the source, and the constructors are present only so that theorems can
state which error a call actually produces. -/
inductive PyError where
  | attributeError
  | indexError
  | faissDimMismatch
  | faissAssertK
  | emptyCorpusError
  | dimensionMismatchError
  | invalidArgumentError
deriving DecidableEq, Repr

/-- Largest finite `float32` value (`FLT_MAX`), the sentinel distance faiss
writes into result slots that have no corresponding stored vector. -/
def fltMax : ℚ := 340282346638528859811704183484516925440

/-- Modelled from the faiss `IndexFlatL2` state: the vector dimension `d`
fixed at construction and the stored vectors `xb` in insertion order. -/
structure IndexFlatL2 where
  d : ℕ
  xb : List Vec
deriving DecidableEq, Repr

/-- Comparator used to model the ranking of the flat index: ascending
squared distance, equal distances resolved by ascending insertion id. -/
def pairLe (a b : ℚ × ℤ) : Bool :=
  decide (a.1 < b.1) || (decide (a.1 = b.1) && decide (a.2 ≤ b.2))

/-- Modelled from the faiss `IndexFlatL2.search` contract for a single
query row: the query's length must equal the index dimension (the Python
wrapper asserts the shape) and `k` must be at least 1 (the C++ side throws
otherwise); the result lists every stored vector's squared L2 distance
paired with its insertion id, sorted ascending by distance with ties
resolved by ascending id, truncated to `k` entries; when `k` exceeds the
number of stored vectors the result is padded to length `k` with sentinel
entries carrying id `-1` and distance `FLT_MAX`. -/
def IndexFlatL2.search (idx : IndexFlatL2) (q : Vec) (k : ℤ) :
    Except PyError (List (ℚ × ℤ)) :=
  if q.length ≠ idx.d then .error .faissDimMismatch
  else if k < 1 then .error .faissAssertK
  else
    let n := idx.xb.length
    let scored := (List.range n).map (fun i => (sqL2 q (idx.xb.getD i []), (i : ℤ)))
    let sorted := scored.mergeSort pairLe
    .ok (sorted.take k.toNat ++ List.replicate (k.toNat - n) (fltMax, -1))

/-- The fields of the `ScentSearch` class: the description list, the
encoded vectors (`None` before the first `add_scents`), and the faiss
index (`None` before the first `add_scents`). -/
structure ScentSearch where
  scent_descriptions : List String
  scent_vectors : Option (List Vec)
  index : Option IndexFlatL2
deriving DecidableEq, Repr

/-- State of a freshly constructed `ScentSearch` object (`__init__`): empty
description list, no vector array, no index. -/
def ScentSearch.init : ScentSearch := ⟨[], none, none⟩

/-- Modelled from numpy semantics for `array.shape[1]` on the array
returned by the batch encoder: a non-empty batch of equal-length vectors
is a 2-d array and `shape[1]` is the common length; an empty batch is a
1-d empty array, and a ragged batch a 1-d object array, so `shape[1]`
raises `IndexError` in both cases. -/
def npShape1 (vs : List Vec) : Except PyError ℕ :=
  match vs with
  | [] => .error .indexError
  | v :: rest =>
    if rest.all (fun w => w.length == v.length) then .ok v.length
    else .error .indexError

/-- The `add_scents` method.  Mirrors the statement order of the source:
`scent_descriptions` is assigned first, then `scent_vectors` is assigned
the batch encoding, then `shape[1]` is read (which is where an empty input
fails), and only then is a fresh `IndexFlatL2` built and filled.  On
failure the assignments already made are kept, exactly as in Python. -/
def ScentSearch.add_scents (enc : String → Vec) (s : ScentSearch)
    (scent_descriptions : List String) : ScentSearch × Except PyError Unit :=
  let vecs := scent_descriptions.map enc
  let s1 : ScentSearch :=
    { s with scent_descriptions := scent_descriptions, scent_vectors := some vecs }
  match npShape1 vecs with
  | .error e => (s1, .error e)
  | .ok d => ({ s1 with index := some ⟨d, vecs⟩ }, .ok ())

/-- Index normalisation of Python list indexing: a negative index counts
from the end of the list. -/
def pyNorm (len : ℕ) (i : ℤ) : ℤ := if i < 0 then i + len else i

/-- Python list indexing `l[i]` with an integer index: a negative index
counts from the end; an index out of range raises `IndexError`. -/
def pyGet (l : List String) (i : ℤ) : Except PyError String :=
  if 0 ≤ pyNorm l.length i ∧ pyNorm l.length i < l.length then
    .ok (l.getD (pyNorm l.length i).toNat "")
  else .error .indexError

/-- The result-formatting loop of `search`: each (distance, id) pair from
the index becomes `(scent_descriptions[id], distance)`; the loop raises as
soon as an index access fails. -/
def formatResults (descs : List String) :
    List (ℚ × ℤ) → Except PyError (List (String × ℚ))
  | [] => .ok []
  | p :: rest =>
    match pyGet descs p.2 with
    | .error e => .error e
    | .ok dsc =>
      match formatResults descs rest with
      | .error e => .error e
      | .ok tail => .ok ((dsc, p.1) :: tail)

/-- The `search` method.  Encodes the query, calls `self.index.search`
(an `AttributeError` if the index is still `None`), and formats the
returned (distance, id) pairs through the description list.  The method
assigns no field of `self`, so the state is returned unchanged in every
branch. -/
def ScentSearch.search (enc : String → Vec) (s : ScentSearch) (q : String)
    (k : ℤ) : ScentSearch × Except PyError (List (String × ℚ)) :=
  let qv := enc q
  match s.index with
  | none => (s, .error .attributeError)
  | some idx =>
    match idx.search qv k with
    | .error e => (s, .error e)
    | .ok pairs => (s, formatResults s.scent_descriptions pairs)

/-- A concrete encoder used by the witnesses: every text maps to the
one-dimensional zero vector. -/
def encZero : String → Vec := fun _ => [0]

/-- The store after indexing the one-description corpus `["a"]` with the
zero encoder. -/
def oneItemState : ScentSearch :=
  (ScentSearch.init.add_scents encZero ["a"]).1

/-- The scored list built by the flat index for a store holding the
encodings of `D`: the distance from the encoded query to each stored
vector, paired with the vector's insertion id. -/
def scoredOf (enc : String → Vec) (D : List String) (q : String) : List (ℚ × ℤ) :=
  (List.range (D.map enc).length).map
    (fun i => (sqL2 (enc q) ((D.map enc).getD i []), (i : ℤ)))

/-- The (distance, id) pairs `IndexFlatL2.search` hands back to
`ScentSearch.search` for a store built from `D`, before descriptions are
substituted in. -/
def searchPairs (enc : String → Vec) (D : List String) (q : String) (k : ℤ) :
    List (ℚ × ℤ) :=
  ((scoredOf enc D q).mergeSort pairLe).take k.toNat
    ++ List.replicate (k.toNat - (D.map enc).length) (fltMax, -1)

theorem sqL2_nonneg (u v : Vec) : 0 ≤ sqL2 u v := by
  refine List.sum_nonneg fun x hx => ?_
  simp only [List.mem_map] at hx
  obtain ⟨p, -, rfl⟩ := hx
  positivity

theorem sqL2_self (v : Vec) : sqL2 v v = 0 := by
  induction v with
  | nil => rfl
  | cons a t ih =>
    simp only [sqL2, List.zip_cons_cons, List.map_cons, List.sum_cons, sub_self,
      ne_eq, OfNat.ofNat_ne_zero, not_false_eq_true, zero_pow, zero_add] at *
    exact ih

theorem fltMax_nonneg : 0 ≤ fltMax := by norm_num [fltMax]

theorem pairLe_iff (a b : ℚ × ℤ) :
    pairLe a b = true ↔ a.1 < b.1 ∨ (a.1 = b.1 ∧ a.2 ≤ b.2) := by
  simp [pairLe]

theorem pairLe_trans (a b c : ℚ × ℤ) (hab : pairLe a b = true)
    (hbc : pairLe b c = true) : pairLe a c = true := by
  rw [pairLe_iff] at *
  rcases hab with h | ⟨h, h'⟩ <;> rcases hbc with g | ⟨g, g'⟩
  · exact Or.inl (h.trans g)
  · exact Or.inl (g ▸ h)
  · exact Or.inl (h ▸ g)
  · exact Or.inr ⟨h.trans g, h'.trans g'⟩

theorem pairLe_total (a b : ℚ × ℤ) : (pairLe a b || pairLe b a) = true := by
  simp only [Bool.or_eq_true, pairLe_iff]
  rcases lt_trichotomy a.1 b.1 with h | h | h
  · exact Or.inl (Or.inl h)
  · rcases le_total a.2 b.2 with h' | h'
    · exact Or.inl (Or.inr ⟨h, h'⟩)
    · exact Or.inr (Or.inr ⟨h.symm, h'⟩)
  · exact Or.inr (Or.inl h)

theorem npShape1_ok (enc : String → Vec) (d0 : ℕ) (D : List String)
    (henc : ∀ t, (enc t).length = d0) (hD : D ≠ []) :
    npShape1 (D.map enc) = .ok d0 := by
  cases D with
  | nil => exact absurd rfl hD
  | cons a as =>
    simp only [List.map_cons, npShape1, List.all_eq_true]
    rw [if_pos]
    · rw [henc a]
    · intro w hw
      simp only [List.mem_map] at hw
      obtain ⟨t, -, rfl⟩ := hw
      simp [henc]

/-- A build with a fixed-dimension encoder and a non-empty corpus always
succeeds and fully determines the resulting store. -/
theorem add_scents_ok (enc : String → Vec) (d0 : ℕ) (s0 : ScentSearch)
    (D : List String) (henc : ∀ t, (enc t).length = d0) (hD : D ≠ []) :
    ScentSearch.add_scents enc s0 D
      = (⟨D, some (D.map enc), some ⟨d0, D.map enc⟩⟩, .ok ()) := by
  simp only [ScentSearch.add_scents, npShape1_ok enc d0 D henc hD]

theorem pyGet_ok_of_nonneg (l : List String) (i : ℤ) (h0 : 0 ≤ i)
    (h1 : i < l.length) : pyGet l i = .ok (l.getD i.toNat "") := by
  have hn : pyNorm l.length i = i := if_neg (by omega)
  simp only [pyGet, hn]
  rw [if_pos ⟨h0, h1⟩]

theorem pyGet_neg_one (l : List String) (h : l ≠ []) :
    pyGet l (-1) = .ok (l.getD (l.length - 1) "") := by
  have hl : 0 < l.length := List.length_pos.mpr h
  have hn : pyNorm l.length (-1) = (l.length : ℤ) - 1 := by
    simp only [pyNorm, if_pos (show (-1 : ℤ) < 0 by norm_num)]
    omega
  simp only [pyGet, hn]
  rw [if_pos ⟨by omega, by omega⟩]
  have ht : ((l.length : ℤ) - 1).toNat = l.length - 1 := by omega
  rw [ht]

theorem pyGet_mem (l : List String) (i : ℤ) (a : String)
    (h : pyGet l i = .ok a) : a ∈ l := by
  simp only [pyGet] at h
  split at h
  · rename_i hj
    have hlt : (pyNorm l.length i).toNat < l.length := by omega
    rw [List.getD_eq_getElem l "" hlt] at h
    cases h
    exact List.getElem_mem hlt
  · cases h

theorem formatResults_ok_map (descs : List String) (ps : List (ℚ × ℤ))
    (h : ∀ p ∈ ps, 0 ≤ p.2 ∧ p.2 < descs.length) :
    formatResults descs ps
      = .ok (ps.map fun p => (descs.getD p.2.toNat "", p.1)) := by
  induction ps with
  | nil => rfl
  | cons p rest ih =>
    obtain ⟨h0, h1⟩ := h p (List.mem_cons_self p rest)
    unfold formatResults
    rw [pyGet_ok_of_nonneg descs p.2 h0 h1,
      ih fun x hx => h x (List.mem_cons_of_mem p hx)]
    simp

theorem formatResults_ok_exists (descs : List String) (ps : List (ℚ × ℤ))
    (hne : descs ≠ [])
    (h : ∀ p ∈ ps, (0 ≤ p.2 ∧ p.2 < descs.length) ∨ p.2 = -1) :
    ∃ l, formatResults descs ps = .ok l := by
  induction ps with
  | nil => exact ⟨[], rfl⟩
  | cons p rest ih =>
    obtain ⟨tail, htail⟩ := ih fun x hx => h x (List.mem_cons_of_mem p hx)
    have hget : ∃ dsc, pyGet descs p.2 = .ok dsc := by
      rcases h p (List.mem_cons_self p rest) with ⟨h0, h1⟩ | hneg
      · exact ⟨_, pyGet_ok_of_nonneg descs p.2 h0 h1⟩
      · rw [hneg]
        exact ⟨_, pyGet_neg_one descs hne⟩
    obtain ⟨dsc, hdsc⟩ := hget
    refine ⟨(dsc, p.1) :: tail, ?_⟩
    unfold formatResults
    rw [hdsc, htail]

theorem formatResults_snd (descs : List String) (ps : List (ℚ × ℤ))
    (l : List (String × ℚ)) (h : formatResults descs ps = .ok l) :
    l.map Prod.snd = ps.map Prod.fst := by
  induction ps generalizing l with
  | nil => cases h; rfl
  | cons p rest ih =>
    unfold formatResults at h
    split at h
    · cases h
    · split at h
      · cases h
      · rename_i tail htail
        cases h
        simp [ih tail htail]

/-- Squared distance from the encoded query to the `i`-th stored vector of
a store built from `D`. -/
def distAt (enc : String → Vec) (D : List String) (q : String) (i : ℕ) : ℚ :=
  sqL2 (enc q) ((D.map enc).getD i [])

theorem mem_scoredOf (enc : String → Vec) (D : List String) (q : String)
    (p : ℚ × ℤ) :
    p ∈ scoredOf enc D q ↔
      ∃ i : ℕ, i < D.length ∧ p = (distAt enc D q i, (i : ℤ)) := by
  simp only [scoredOf, distAt, List.mem_map, List.mem_range, List.length_map]
  constructor
  · rintro ⟨i, hi, rfl⟩
    exact ⟨i, hi, rfl⟩
  · rintro ⟨i, hi, rfl⟩
    exact ⟨i, hi, rfl⟩

/-- Characterisation of the first `min(k, n)` pairs handed back by the
modelled flat index: they are images of a list of distinct valid ids whose
(distance, id) keys increase strictly in the lexicographic order, i.e. the
pairs are sorted ascending by distance with ties resolved by ascending
insertion id. -/
theorem take_mergeSort_spec (enc : String → Vec) (D : List String)
    (q : String) (k : ℤ) (hkn : k.toNat ≤ D.length) :
    ∃ ids : List ℕ,
      ((scoredOf enc D q).mergeSort pairLe).take k.toNat
        = ids.map (fun i => (distAt enc D q i, (i : ℤ))) ∧
      ids.length = k.toNat ∧
      (∀ i ∈ ids, i < D.length) ∧
      ids.Chain' (fun i j => distAt enc D q i < distAt enc D q j ∨
        (distAt enc D q i = distAt enc D q j ∧ i < j)) := by
  have hperm : ((scoredOf enc D q).mergeSort pairLe).Perm (scoredOf enc D q) :=
    List.mergeSort_perm _ _
  have hlen : (scoredOf enc D q).length = D.length := by
    simp [scoredOf]
  have hsorted : ((scoredOf enc D q).mergeSort pairLe).Pairwise
      (fun a b => pairLe a b = true) :=
    List.sorted_mergeSort pairLe_trans pairLe_total _
  have hne0 : (scoredOf enc D q).Pairwise (fun a b => a.2 ≠ b.2) := by
    rw [scoredOf, List.pairwise_map]
    refine (List.pairwise_lt_range _).imp ?_
    intro a b h
    show (a : ℤ) ≠ (b : ℤ)
    exact_mod_cast Nat.ne_of_lt h
  have hne : ((scoredOf enc D q).mergeSort pairLe).Pairwise
      (fun a b => a.2 ≠ b.2) :=
    (hperm.pairwise_iff fun h => h.symm).mpr hne0
  have hstrict : ((scoredOf enc D q).mergeSort pairLe).Pairwise
      (fun a b => a.1 < b.1 ∨ (a.1 = b.1 ∧ a.2 < b.2)) := by
    refine (hsorted.and hne).imp fun {a b} hab => ?_
    obtain ⟨hle, hsne⟩ := hab
    rw [pairLe_iff] at hle
    rcases hle with h | ⟨h, h'⟩
    · exact Or.inl h
    · exact Or.inr ⟨h, lt_of_le_of_ne h' hsne⟩
  have htkP : (((scoredOf enc D q).mergeSort pairLe).take k.toNat).Pairwise
      (fun a b => a.1 < b.1 ∨ (a.1 = b.1 ∧ a.2 < b.2)) :=
    List.Pairwise.sublist (List.take_sublist _ _) hstrict
  have hmem : ∀ p ∈ ((scoredOf enc D q).mergeSort pairLe).take k.toNat,
      ∃ i : ℕ, i < D.length ∧ p = (distAt enc D q i, (i : ℤ)) := fun p hp =>
    (mem_scoredOf enc D q p).mp (hperm.subset (List.take_subset _ _ hp))
  refine ⟨(((scoredOf enc D q).mergeSort pairLe).take k.toNat).map
      (fun p => p.2.toNat), ?_, ?_, ?_, ?_⟩
  · rw [List.map_map]
    conv_lhs => rw [← List.map_id (((scoredOf enc D q).mergeSort pairLe).take k.toNat)]
    refine List.map_congr_left fun p hp => ?_
    obtain ⟨i, hi, rfl⟩ := hmem p hp
    simp
  · rw [List.length_map, List.length_take, List.length_mergeSort, hlen]
    omega
  · intro i hi
    simp only [List.mem_map] at hi
    obtain ⟨p, hp, rfl⟩ := hi
    obtain ⟨j, hj, rfl⟩ := hmem p hp
    simpa using hj
  · refine List.Pairwise.chain' ?_
    rw [List.pairwise_map]
    refine List.Pairwise.imp_of_mem ?_ htkP
    intro a b ha hb hab
    obtain ⟨i, hi, rfl⟩ := hmem a ha
    obtain ⟨j, hj, rfl⟩ := hmem b hb
    simp only [Int.toNat_natCast]
    rcases hab with h | ⟨h, h'⟩
    · exact Or.inl h
    · refine Or.inr ⟨h, ?_⟩
      simpa using h'

theorem formatResults_mem (descs : List String) (ps : List (ℚ × ℤ))
    (l : List (String × ℚ)) (h : formatResults descs ps = .ok l) :
    ∀ x ∈ l, x.1 ∈ descs := by
  induction ps generalizing l with
  | nil => cases h; simp
  | cons p rest ih =>
    unfold formatResults at h
    split at h
    · cases h
    · rename_i dsc hdsc
      split at h
      · cases h
      · rename_i tail htail
        cases h
        intro x hx
        rcases List.mem_cons.mp hx with rfl | hx'
        · exact pyGet_mem descs p.2 dsc hdsc
        · exact ih tail htail x hx'

/-- On a store built from `D` the `search` method leaves the state intact
and formats the pairs returned by the flat index through the description
list. -/
theorem search_built_eq (enc : String → Vec) (d0 : ℕ) (D : List String)
    (q : String) (k : ℤ) (henc : ∀ t, (enc t).length = d0) (hk : 1 ≤ k) :
    ScentSearch.search enc ⟨D, some (D.map enc), some ⟨d0, D.map enc⟩⟩ q k
      = (⟨D, some (D.map enc), some ⟨d0, D.map enc⟩⟩,
         formatResults D (searchPairs enc D q k)) := by
  have h1 : ¬((enc q).length ≠ d0) := by simp [henc q]
  have h2 : ¬(k < 1) := by omega
  simp only [ScentSearch.search, IndexFlatL2.search, searchPairs, scoredOf,
    if_neg h1, if_neg h2]

theorem searchPairs_bounds (enc : String → Vec) (D : List String)
    (q : String) (k : ℤ) (p : ℚ × ℤ) (hp : p ∈ searchPairs enc D q k) :
    (∃ i : ℕ, i < D.length ∧ p = (distAt enc D q i, (i : ℤ))) ∨
      p = (fltMax, -1) := by
  rcases List.mem_append.mp hp with h | h
  · exact Or.inl ((mem_scoredOf enc D q p).mp
      ((List.mergeSort_perm _ _).subset (List.take_subset _ _ h)))
  · exact Or.inr (List.eq_of_mem_replicate h)

theorem searchPairs_length (enc : String → Vec) (D : List String)
    (q : String) (k : ℤ) : (searchPairs enc D q k).length = k.toNat := by
  simp only [searchPairs, List.length_append, List.length_take,
    List.length_mergeSort, List.length_replicate, scoredOf, List.length_map,
    List.length_range]
  omega

theorem searchPairs_take_eq (enc : String → Vec) (D : List String)
    (q : String) (k : ℤ) (hkn : k.toNat ≤ D.length) :
    searchPairs enc D q k
      = ((scoredOf enc D q).mergeSort pairLe).take k.toNat := by
  have hz : k.toNat - (D.map enc).length = 0 := by
    rw [List.length_map]; omega
  simp only [searchPairs, hz, List.replicate_zero, List.append_nil]

/-- When some stored vector is at squared distance zero from the query,
the first pair handed back by the index carries distance zero, and every
pair's distance is non-negative. -/
theorem searchPairs_zero_head (enc : String → Vec) (D : List String)
    (q : String) (k : ℤ) (i : ℕ) (hD : D ≠ []) (hk : 1 ≤ k)
    (hi : i < D.length) (h0 : distAt enc D q i = 0) :
    ∃ hd tl, searchPairs enc D q k = hd :: tl ∧ hd.1 = 0 ∧
      ∀ p ∈ searchPairs enc D q k, 0 ≤ p.1 := by
  have hnonneg : ∀ p ∈ searchPairs enc D q k, 0 ≤ p.1 := by
    intro p hp
    rcases searchPairs_bounds enc D q k p hp with ⟨j, -, rfl⟩ | rfl
    · exact sqL2_nonneg _ _
    · exact fltMax_nonneg
  have hslen : ((scoredOf enc D q).mergeSort pairLe).length = D.length := by
    rw [List.length_mergeSort]
    simp [scoredOf]
  have hpos : 0 < ((scoredOf enc D q).mergeSort pairLe).length := by
    rw [hslen]
    exact List.length_pos.mpr hD
  obtain ⟨hd, tl', hcons⟩ :=
    List.exists_cons_of_ne_nil (List.length_pos.mp hpos)
  have hzmem : (distAt enc D q i, (i : ℤ)) ∈
      (scoredOf enc D q).mergeSort pairLe :=
    ((List.mergeSort_perm _ _).mem_iff).mpr
      ((mem_scoredOf enc D q _).mpr ⟨i, hi, rfl⟩)
  have hd0 : hd.1 = 0 := by
    have hd_nonneg : 0 ≤ hd.1 := by
      have hdmem : hd ∈ (scoredOf enc D q).mergeSort pairLe := by
        rw [hcons]; exact List.mem_cons_self _ _
      rcases (mem_scoredOf enc D q hd).mp
          (((List.mergeSort_perm _ _)).subset hdmem) with ⟨j, -, rfl⟩
      exact sqL2_nonneg _ _
    rw [hcons] at hzmem
    rcases List.mem_cons.mp hzmem with heq | hmem
    · rw [← heq, ← h0]
    · have hsorted := List.sorted_mergeSort pairLe_trans pairLe_total
        (scoredOf enc D q)
      rw [hcons, List.pairwise_cons] at hsorted
      have := hsorted.1 _ hmem
      rw [pairLe_iff] at this
      rcases this with h | ⟨h, -⟩
      · rw [h0] at h
        exact absurd h (not_lt.mpr hd_nonneg)
      · rw [h0] at h
        exact h
  obtain ⟨m, hm⟩ : ∃ m, k.toNat = m + 1 := ⟨k.toNat - 1, by omega⟩
  refine ⟨hd, tl'.take m ++ List.replicate (k.toNat - (D.map enc).length)
    (fltMax, -1), ?_, hd0, hnonneg⟩
  rw [searchPairs, hcons, hm, List.take_succ_cons, List.cons_append]

theorem formatResults_cons_ok (descs : List String) (p : ℚ × ℤ)
    (rest : List (ℚ × ℤ)) (l : List (String × ℚ))
    (h : formatResults descs (p :: rest) = .ok l) :
    ∃ dsc tail, pyGet descs p.2 = .ok dsc ∧
      formatResults descs rest = .ok tail ∧ l = (dsc, p.1) :: tail := by
  unfold formatResults at h
  split at h
  · cases h
  · rename_i dsc hdsc
    split at h
    · cases h
    · rename_i tail htail
      cases h
      exact ⟨dsc, tail, hdsc, htail, rfl⟩

/-- The state a successful build hands back, given what the build call
returned. -/
theorem state_of_build (enc : String → Vec) (d0 : ℕ) (s0 s : ScentSearch)
    (D : List String) (henc : ∀ t, (enc t).length = d0) (hD : D ≠ [])
    (hbuild : ScentSearch.add_scents enc s0 D = (s, Except.ok ())) :
    s = ⟨D, some (D.map enc), some ⟨d0, D.map enc⟩⟩ := by
  have h := (add_scents_ok enc d0 s0 D henc hD).symm.trans hbuild
  exact (congrArg Prod.fst h).symm

/-- Purity of `search`: the state component of the returned pair is the
input state, in every branch of the method. -/
theorem search_state_id (enc : String → Vec) (s : ScentSearch) (q : String)
    (k : ℤ) : (ScentSearch.search enc s q k).1 = s := by
  cases hidx : s.index with
  | none => simp [ScentSearch.search, hidx]
  | some idx =>
    cases hfs : idx.search (enc q) k <;>
      simp [ScentSearch.search, hidx, hfs]

section
attribute [local semireducible] List.merge List.mergeSort

/-- C1.  The original claim fails: on a one-item corpus, a query with
`k = 2` returns two results (the second being the padding entry that
repeats the sole description with the sentinel distance), not
`min(k, n) = 1` results. -/
theorem c1_counterexample :
    Except.map List.length (ScentSearch.search encZero oneItemState "a" 2).2
        = Except.ok 2 ∧
      2 ≠ min 2 1 := by
  exact ⟨rfl, by decide⟩

end

/-- C1 (amended).  For a store built from a non-empty corpus by a
fixed-dimension encoder, `search` with any `k ≥ 1` returns without error a
list of exactly `k` results — not `min(k, n)`: when `k` exceeds the corpus
size the call still succeeds, the surplus entries being padding. -/
theorem c1_search_returns_k (enc : String → Vec) (d0 : ℕ)
    (s0 s : ScentSearch) (D : List String) (q : String) (k : ℤ)
    (henc : ∀ t, (enc t).length = d0) (hD : D ≠ [])
    (hbuild : ScentSearch.add_scents enc s0 D = (s, Except.ok ()))
    (hk : 1 ≤ k) :
    ∃ l, (ScentSearch.search enc s q k).2 = Except.ok l ∧
      l.length = k.toNat := by
  obtain rfl := state_of_build enc d0 s0 s D henc hD hbuild
  rw [search_built_eq enc d0 D q k henc hk]
  obtain ⟨l, hl⟩ := formatResults_ok_exists D (searchPairs enc D q k) hD
    (fun p hp => by
      rcases searchPairs_bounds enc D q k p hp with ⟨i, hi, rfl⟩ | rfl
      · refine Or.inl ⟨Int.natCast_nonneg i, ?_⟩
        show (i : ℤ) < (D.length : ℤ)
        exact_mod_cast hi
      · exact Or.inr rfl)
  refine ⟨l, hl, ?_⟩
  have hsnd := formatResults_snd D (searchPairs enc D q k) l hl
  have := congrArg List.length hsnd
  simpa [searchPairs_length enc D q k] using this

/-- C1 witness: the amended theorem applied to the one-item store with
`k = 2`. -/
theorem c1_search_returns_k_witness :
    (["a"] : List String) ≠ [] ∧
      ∃ l, (ScentSearch.search encZero oneItemState "a" 2).2 = Except.ok l ∧
        l.length = (2 : ℤ).toNat :=
  ⟨by decide, c1_search_returns_k encZero 1 ScentSearch.init oneItemState
    ["a"] "a" 2 (fun _ => rfl) (by decide) rfl (by decide)⟩

/-- C2.  The original claim fails: `search` on a freshly constructed store
raises Python's `AttributeError` (the `index` attribute is `None`), not an
`EmptyCorpusError` — no such exception class exists in the source. -/
theorem c2_counterexample :
    ScentSearch.search encZero ScentSearch.init "x" 1
        = (ScentSearch.init, Except.error PyError.attributeError) ∧
      PyError.attributeError ≠ PyError.emptyCorpusError :=
  ⟨rfl, by decide⟩

/-- C2 (amended).  Calling `search` on a store whose index was never built
fails with `AttributeError` (not `EmptyCorpusError`) and performs no
partial work: the store is returned exactly as it was. -/
theorem c2_search_uninitialized (enc : String → Vec) (s : ScentSearch)
    (q : String) (k : ℤ) (h : s.index = none) :
    ScentSearch.search enc s q k = (s, Except.error PyError.attributeError) := by
  simp [ScentSearch.search, h]

/-- C2 witness: the amended theorem applied to the fresh store. -/
theorem c2_search_uninitialized_witness :
    ScentSearch.init.index = none ∧
      ScentSearch.search encZero ScentSearch.init "x" 1
        = (ScentSearch.init, Except.error PyError.attributeError) :=
  ⟨rfl, c2_search_uninitialized encZero ScentSearch.init "x" 1 rfl⟩

/-- C3.  The original claim fails twice over: a build with an empty input
fails with `IndexError` (reading `shape[1]` of the empty embedding array),
not `EmptyCorpusError`, and it does NOT leave the store in its previous
state — on a previously built store the failing call has already
overwritten the description list and the vector array. -/
theorem c3_counterexample :
    (ScentSearch.add_scents encZero oneItemState []).1 ≠ oneItemState ∧
      (ScentSearch.add_scents encZero oneItemState []).2
        = Except.error PyError.indexError ∧
      PyError.indexError ≠ PyError.emptyCorpusError :=
  ⟨by decide, rfl, by decide⟩

/-- C3 (amended).  A build call with an empty input sequence fails with
`IndexError`, and the failed build partially overwrites the store: the
description list becomes empty and the vector array becomes the empty
batch, while the previous index object is retained. -/
theorem c3_add_scents_empty (enc : String → Vec) (s : ScentSearch) :
    ScentSearch.add_scents enc s []
      = ({ s with scent_descriptions := [], scent_vectors := some [] },
         Except.error PyError.indexError) := rfl

/-- C4.  For a store built from a non-empty corpus by a fixed-dimension
encoder and a query with `1 ≤ k ≤ n`, the returned sequence lists, at each
rank (its 0-based position), the description and exact squared L2 distance
of a stored item; the underlying ids are valid, and consecutive ranks
increase strictly in the lexicographic (distance, id) order — ascending
distance, ties broken by ascending insertion id. -/
theorem c4_sorted_rank (enc : String → Vec) (d0 : ℕ) (s0 s : ScentSearch)
    (D : List String) (q : String) (k : ℤ)
    (henc : ∀ t, (enc t).length = d0) (hD : D ≠ [])
    (hbuild : ScentSearch.add_scents enc s0 D = (s, Except.ok ()))
    (hk : 1 ≤ k) (hkn : k.toNat ≤ D.length) :
    ∃ ids : List ℕ,
      (ScentSearch.search enc s q k).2
        = Except.ok (ids.map fun i => (D.getD i "", distAt enc D q i)) ∧
      ids.length = k.toNat ∧
      (∀ i ∈ ids, i < D.length) ∧
      ids.Chain' (fun i j => distAt enc D q i < distAt enc D q j ∨
        (distAt enc D q i = distAt enc D q j ∧ i < j)) := by
  obtain rfl := state_of_build enc d0 s0 s D henc hD hbuild
  rw [search_built_eq enc d0 D q k henc hk]
  obtain ⟨ids, hmap, hlen, hbound, hchain⟩ :=
    take_mergeSort_spec enc D q k hkn
  refine ⟨ids, ?_, hlen, hbound, hchain.imp fun {i j} h => h⟩
  rw [searchPairs_take_eq enc D q k hkn, hmap]
  rw [formatResults_ok_map D _ (fun p hp => by
    obtain ⟨i, hi, rfl⟩ := List.mem_map.mp hp
    refine ⟨Int.natCast_nonneg i, ?_⟩
    show (i : ℤ) < (D.length : ℤ)
    exact_mod_cast hbound i hi)]
  rw [List.map_map]
  congr 1

/-- C4 witness: the theorem applied to the one-item store with `k = 1`. -/
theorem c4_sorted_rank_witness :
    (["a"] : List String) ≠ [] ∧
      ∃ ids : List ℕ,
        (ScentSearch.search encZero oneItemState "a" 1).2
          = Except.ok (ids.map fun i =>
              ((["a"] : List String).getD i "", distAt encZero ["a"] "a" i)) ∧
        ids.length = (1 : ℤ).toNat ∧
        (∀ i ∈ ids, i < (["a"] : List String).length) ∧
        ids.Chain' (fun i j => distAt encZero ["a"] "a" i < distAt encZero ["a"] "a" j ∨
          (distAt encZero ["a"] "a" i = distAt encZero ["a"] "a" j ∧ i < j)) :=
  ⟨by decide, c4_sorted_rank encZero 1 ScentSearch.init oneItemState
    ["a"] "a" 1 (fun _ => rfl) (by decide) rfl (by decide) (by decide)⟩

/-- C5.  Build fully replaces the store: after building with `D1` and then
successfully rebuilding with a disjoint non-empty `D2`, every description a
subsequent query returns is an element of `D2` and none is from `D1`. -/
theorem c5_replace_semantics (enc : String → Vec) (d0 : ℕ)
    (s0 s1 s2 : ScentSearch) (r1 : Except PyError Unit)
    (D1 D2 : List String)
    (henc : ∀ t, (enc t).length = d0) (hD2 : D2 ≠ [])
    (hb1 : ScentSearch.add_scents enc s0 D1 = (s1, r1))
    (hb2 : ScentSearch.add_scents enc s1 D2 = (s2, Except.ok ()))
    (hdisj : ∀ x ∈ D2, x ∉ D1) :
    ∀ q k l, (ScentSearch.search enc s2 q k).2 = Except.ok l →
      ∀ p ∈ l, p.1 ∈ D2 ∧ p.1 ∉ D1 := by
  obtain rfl := state_of_build enc d0 s1 s2 D2 henc hD2 hb2
  intro q k l hsearch p hp
  cases hfs : IndexFlatL2.search ⟨d0, D2.map enc⟩ (enc q) k with
  | error e => simp [ScentSearch.search, hfs] at hsearch
  | ok pairs =>
    simp only [ScentSearch.search, hfs] at hsearch
    have hmem := formatResults_mem D2 pairs l hsearch p hp
    exact ⟨hmem, hdisj p.1 hmem⟩

/-- C5 witness: building `["b"]` then `["a"]` and querying the result. -/
theorem c5_replace_semantics_witness :
    (["a"] : List String) ≠ [] ∧
      ∀ q k l,
        (ScentSearch.search encZero
          (((ScentSearch.init.add_scents encZero ["b"]).1).add_scents
            encZero ["a"]).1 q k).2 = Except.ok l →
        ∀ p ∈ l, p.1 ∈ (["a"] : List String) ∧ p.1 ∉ (["b"] : List String) :=
  ⟨by decide, c5_replace_semantics encZero 1
    ScentSearch.init (ScentSearch.init.add_scents encZero ["b"]).1
    (((ScentSearch.init.add_scents encZero ["b"]).1).add_scents
      encZero ["a"]).1 (Except.ok ()) ["b"] ["a"]
    (fun _ => rfl) (by decide) rfl rfl (by decide)⟩

/-- C6.  Exact match: when the query string is verbatim the `i`-th indexed
description (and the encoder, being a function, maps identical text to
identical vectors), that item's squared distance is `0`, and the result
list is non-empty with head (rank 0) distance `0`, which is the minimum of
all returned distances. -/
theorem c6_exact_match (enc : String → Vec) (d0 : ℕ) (s0 s : ScentSearch)
    (D : List String) (q : String) (k : ℤ) (i : ℕ)
    (henc : ∀ t, (enc t).length = d0) (hD : D ≠ [])
    (hbuild : ScentSearch.add_scents enc s0 D = (s, Except.ok ()))
    (hk : 1 ≤ k) (hi : i < D.length) (hq : q = D.getD i "") :
    distAt enc D q i = 0 ∧
    ∃ l, (ScentSearch.search enc s q k).2 = Except.ok l ∧ l ≠ [] ∧
      (l.headD ("", 0)).2 = 0 ∧ ∀ p ∈ l, (l.headD ("", 0)).2 ≤ p.2 := by
  obtain rfl := state_of_build enc d0 s0 s D henc hD hbuild
  have hvec : (D.map enc).getD i [] = enc (D.getD i "") := by
    have hi' : i < (D.map enc).length := by simpa using hi
    rw [List.getD_eq_getElem _ _ hi', List.getD_eq_getElem _ _ hi]
    simp
  have h0 : distAt enc D q i = 0 := by
    rw [distAt, hvec, ← hq, sqL2_self]
  refine ⟨h0, ?_⟩
  rw [search_built_eq enc d0 D q k henc hk]
  obtain ⟨hd, tl, hcons, hhd0, hnonneg⟩ :=
    searchPairs_zero_head enc D q k i hD hk hi h0
  obtain ⟨l, hl⟩ := formatResults_ok_exists D (searchPairs enc D q k) hD
    (fun p hp => by
      rcases searchPairs_bounds enc D q k p hp with ⟨j, hj, rfl⟩ | rfl
      · refine Or.inl ⟨Int.natCast_nonneg j, ?_⟩
        show (j : ℤ) < (D.length : ℤ)
        exact_mod_cast hj
      · exact Or.inr rfl)
  have hsnd := formatResults_snd D (searchPairs enc D q k) l hl
  have hl' := hl
  rw [hcons] at hl'
  obtain ⟨dsc, tail, hpg, htail, rfl⟩ := formatResults_cons_ok D hd tl l hl'
  refine ⟨(dsc, hd.1) :: tail, hl, List.cons_ne_nil _ _, ?_, ?_⟩
  · rw [List.headD_cons]
    exact hhd0
  · intro p hp
    rw [List.headD_cons, hhd0]
    have hmem : p.2 ∈ ((dsc, hd.1) :: tail).map Prod.snd :=
      List.mem_map_of_mem Prod.snd hp
    rw [hsnd] at hmem
    obtain ⟨pr, hpr, hpr2⟩ := List.mem_map.mp hmem
    rw [← hpr2]
    exact hnonneg pr hpr

/-- C6 witness: querying the one-item store with its own description. -/
theorem c6_exact_match_witness :
    0 < (["a"] : List String).length ∧
      (distAt encZero ["a"] "a" 0 = 0 ∧
      ∃ l, (ScentSearch.search encZero oneItemState "a" 1).2 = Except.ok l ∧
        l ≠ [] ∧ (l.headD ("", 0)).2 = 0 ∧
        ∀ p ∈ l, (l.headD ("", 0)).2 ≤ p.2) :=
  ⟨by decide, c6_exact_match encZero 1 ScentSearch.init oneItemState
    ["a"] "a" 1 0 (fun _ => rfl) (by decide) rfl (by decide) (by decide) rfl⟩

/-- C7.  Determinism: under the (functional, hence deterministic) encoder,
two `search` calls with equal states and equal inputs return equal ordered
output, and a repeated call after a first one (which leaves the state
unchanged) returns the same result. -/
theorem c7_deterministic (enc : String → Vec) (s1 s2 : ScentSearch)
    (q1 q2 : String) (k1 k2 : ℤ) (hs : s1 = s2) (hq : q1 = q2)
    (hk : k1 = k2) :
    ScentSearch.search enc s1 q1 k1 = ScentSearch.search enc s2 q2 k2 ∧
    (ScentSearch.search enc (ScentSearch.search enc s1 q1 k1).1 q2 k2).2
      = (ScentSearch.search enc s1 q1 k1).2 := by
  subst hs
  subst hq
  subst hk
  exact ⟨rfl, by rw [search_state_id]⟩

/-- C7 witness: two identical queries against the one-item store. -/
theorem c7_deterministic_witness :
    ScentSearch.search encZero oneItemState "a" 1
        = ScentSearch.search encZero oneItemState "a" 1 ∧
      (ScentSearch.search encZero
          (ScentSearch.search encZero oneItemState "a" 1).1 "a" 1).2
        = (ScentSearch.search encZero oneItemState "a" 1).2 :=
  c7_deterministic encZero oneItemState oneItemState "a" "a" 1 1 rfl rfl rfl

/-- C8.  The original claim fails: on a built store, `search` with `k = 0`
raises the runtime error of the faiss index's `k > 0` check, not an
`InvalidArgumentError` — no such exception class exists in the source. -/
theorem c8_counterexample :
    (ScentSearch.search encZero oneItemState "a" 0).2
        = Except.error PyError.faissAssertK ∧
      PyError.faissAssertK ≠ PyError.invalidArgumentError :=
  ⟨rfl, by decide⟩

/-- C8 (amended).  On a built store whose dimension matches the encoded
query, `search` with `k < 1` fails with the faiss `k > 0` assertion error;
the error reaches the immediate caller unchanged (there is no handler in
the method) and the state is untouched. -/
theorem c8_k_lt_one (enc : String → Vec) (s : ScentSearch)
    (idx : IndexFlatL2) (q : String) (k : ℤ) (hidx : s.index = some idx)
    (hdim : (enc q).length = idx.d) (hk : k < 1) :
    ScentSearch.search enc s q k = (s, Except.error PyError.faissAssertK) := by
  simp only [ScentSearch.search, hidx, IndexFlatL2.search,
    if_neg (by simp [hdim] : ¬((enc q).length ≠ idx.d)), if_pos hk]

/-- C8 witness: the amended theorem applied to the one-item store with
`k = 0`. -/
theorem c8_k_lt_one_witness :
    oneItemState.index = some ⟨1, [[0]]⟩ ∧
      ScentSearch.search encZero oneItemState "a" 0
        = (oneItemState, Except.error PyError.faissAssertK) :=
  ⟨rfl, c8_k_lt_one encZero oneItemState ⟨1, [[0]]⟩ "a" 0 rfl rfl (by decide)⟩

/-- C9.  Purity of `search`: the state handed back is the input state, and
in particular the description list, vector array and index are identical
before and after the call; the call's only product is its return value. -/
theorem c9_search_pure (enc : String → Vec) (s : ScentSearch) (q : String)
    (k : ℤ) :
    (ScentSearch.search enc s q k).1 = s ∧
    (ScentSearch.search enc s q k).1.scent_descriptions
      = s.scent_descriptions ∧
    (ScentSearch.search enc s q k).1.scent_vectors = s.scent_vectors ∧
    (ScentSearch.search enc s q k).1.index = s.index := by
  have h := search_state_id enc s q k
  exact ⟨h, by rw [h], by rw [h], by rw [h]⟩

/-- C10.  Invariant after a successful build: the stored descriptions are
exactly the input `D` in order, the vector array and the index hold one
vector per description (so all three counts agree with `len(D)`), and for
every query with `1 ≤ k ≤ len(D)` the search succeeds with `k` results
each of whose descriptions is an element of `D` (every id produced by the
flat-index lookup is a valid 0-based position into the description
list). -/
theorem c10_store_invariant (enc : String → Vec) (d0 : ℕ)
    (s0 s : ScentSearch) (D : List String)
    (henc : ∀ t, (enc t).length = d0) (hD : D ≠ [])
    (hbuild : ScentSearch.add_scents enc s0 D = (s, Except.ok ())) :
    s.scent_descriptions = D ∧
    s.scent_vectors = some (D.map enc) ∧
    s.index = some ⟨d0, D.map enc⟩ ∧
    (D.map enc).length = D.length ∧
    ∀ q k, 1 ≤ k → k.toNat ≤ D.length →
      ∃ l, (ScentSearch.search enc s q k).2 = Except.ok l ∧
        l.length = k.toNat ∧ ∀ p ∈ l, p.1 ∈ D := by
  obtain rfl := state_of_build enc d0 s0 s D henc hD hbuild
  refine ⟨rfl, rfl, rfl, by simp, ?_⟩
  intro q k hk hkn
  rw [search_built_eq enc d0 D q k henc hk]
  obtain ⟨l, hl⟩ := formatResults_ok_exists D (searchPairs enc D q k) hD
    (fun p hp => by
      rcases searchPairs_bounds enc D q k p hp with ⟨j, hj, rfl⟩ | rfl
      · refine Or.inl ⟨Int.natCast_nonneg j, ?_⟩
        show (j : ℤ) < (D.length : ℤ)
        exact_mod_cast hj
      · exact Or.inr rfl)
  refine ⟨l, hl, ?_, formatResults_mem D (searchPairs enc D q k) l hl⟩
  have hsnd := formatResults_snd D (searchPairs enc D q k) l hl
  have := congrArg List.length hsnd
  simpa [searchPairs_length enc D q k] using this

/-- C10 witness: the invariant instantiated on the one-item store. -/
theorem c10_store_invariant_witness :
    (["a"] : List String) ≠ [] ∧
      (oneItemState.scent_descriptions = ["a"] ∧
      oneItemState.scent_vectors = some ((["a"] : List String).map encZero) ∧
      oneItemState.index = some ⟨1, (["a"] : List String).map encZero⟩ ∧
      ((["a"] : List String).map encZero).length
        = (["a"] : List String).length ∧
      ∀ q k, 1 ≤ k → k.toNat ≤ (["a"] : List String).length →
        ∃ l, (ScentSearch.search encZero oneItemState q k).2 = Except.ok l ∧
          l.length = k.toNat ∧ ∀ p ∈ l, p.1 ∈ (["a"] : List String)) :=
  ⟨by decide, c10_store_invariant encZero 1 ScentSearch.init oneItemState
    ["a"] (fun _ => rfl) (by decide) rfl⟩

end ScentContext
